import Mathlib

/-!
Verification development for the rank-date projection engine of the
mapranktimes backend (source file
`src/edgeFunctions/supabase/functions/_shared/osuFunctions.ts`).

The TypeScript source is shallowly embedded below.  All wall-clock times are
integer epoch milliseconds (`Int`), all probabilities and intermediate
numeric values are exact rationals (`ℚ`): every arithmetic operation the
code performs on these values (sums, products, divisions, `Math.floor`,
`Math.min`/`max`) is exact in IEEE doubles at the magnitudes involved, so
the rational model coincides with the float computation.

`constants.ts` is imported by the source file but is not part of the given
sources; its values are modelled from the spec (see the doc comments on the
constant definitions).  JavaScript runtime errors (a property access on
`undefined`/`null`, e.g. through the non-null assertion `!`) are modelled by
`Option`: a function returns `none` exactly when the JS code would throw a
`TypeError`.  JavaScript's implicit `null`-to-`0` coercion in `queuedAt! +
MINIMUM_DAYS_FOR_RANK * DAY` (an arithmetic `+`, which does not throw) is
modelled by `Option.getD 0`.
-/

namespace MapRankTimes

/- The Batteries rational-number operations are sealed; unseal them locally so
that closed instances of the embedded functions evaluate inside `decide`. -/
attribute [local semireducible] Rat.mul Rat.add Rat.sub Rat.inv

/-- Modelled from the spec: `constants.ts` is not in the sources. A day in
milliseconds (spec §3 gives DAY = 86400 s; the code does all time math in
epoch milliseconds, spec §9 "Numeric care"). -/
def DAY : Int := 86400000

/-- Modelled from the spec: a minute in milliseconds. -/
def MINUTE : Int := 60000

/-- Modelled from the spec: minutes between rank batches, example value 20
(spec §3); consistent with the hard-coded `% 20` in `intervalTimeDelta`. -/
def RANK_INTERVAL : Int := 20

/-- Modelled from the spec: maps ranked per batch tick, example value 3. -/
def RANK_PER_RUN : Nat := 3

/-- Modelled from the spec: daily cap per mode, example value 8. -/
def RANK_PER_DAY : Nat := 8

/-- Modelled from the spec: minimum days a set stays queued, example value 7. -/
def MINIMUM_DAYS_FOR_RANK : Int := 7

/-- Modelled from the spec: probability threshold, example value 0.5. -/
def SPLIT : ℚ := 1/2

/-! ### Event-log reducer (`setQueueDate`), §4.3

The source fetches the event list from the API newest-first and reverses it;
the model takes the chronological (oldest-first) list directly.
`MAXIMUM_PENALTY_DAYS` has no example value in the spec, so it is kept as an
explicit parameter `maxPenaltyDays` of the reducer. -/

/-- Event types replayed by `setQueueDate`. -/
inductive EventType where
  | qualify
  | disqualify
  | rank
  | nominate
  | nominationReset
deriving DecidableEq, Repr

/-- The per-event record `setQueueDate` builds from the API response:
`time` is `Date.parse(event.created_at)` in ms, `beatmapIds` and
`nominators` come from `event.comment` (defaulting to `[]`). -/
structure QEvent where
  type : EventType
  time : Int
  beatmapIds : List Int
  nominators : List Int
  userId : Int
deriving DecidableEq, Repr

/-- Mutable state of the replay loop in `setQueueDate`. -/
structure ReplayState where
  previousQueueDuration : Int
  queuedAt : Option Int
  lastDisqualifiedEvent : Option QEvent
  nominators : List Int
  penaltyDays : Int
deriving DecidableEq, Repr

/-- Initial replay state. -/
def initialReplayState : ReplayState :=
  { previousQueueDuration := 0
    queuedAt := none
    lastDisqualifiedEvent := none
    nominators := []
    penaltyDays := 0 }

/-- `sameIds(a, b)`: `a.length === b.length && a.every((item) => setB.has(item))`. -/
def sameIds (a b : List Int) : Bool :=
  a.length = b.length && a.all fun x => b.contains x

/-- `diffsAdded(newMapIds, oldMapIds)`: some new id is absent from the old ids. -/
def diffsAdded (newMapIds oldMapIds : List Int) : Bool :=
  (newMapIds.filter fun id => !oldMapIds.contains id).length > 0

/-- One step of the `switch (event.type)` in `setQueueDate`.  `currentIds` is
`beatmapSet.beatmaps.map((b) => b.id)`, the candidate's current beatmap ids. -/
def replayStep (currentIds : List Int) (maxPenaltyDays : Int)
    (st : ReplayState) (e : QEvent) : ReplayState :=
  match e.type with
  | .qualify =>
    let st1 := { st with queuedAt := some e.time }
    let st2 :=
      match st1.lastDisqualifiedEvent with
      | some dq =>
        if !sameIds dq.nominators st1.nominators then
          { st1 with queuedAt := some e.time, previousQueueDuration := 0 }
        else st1
      | none => st1
    let reset :=
      match st2.lastDisqualifiedEvent with
      | some dq => diffsAdded currentIds dq.beatmapIds
      | none => false
    if reset then { st2 with queuedAt := some e.time }
    else
      let maxAdjustment := (MINIMUM_DAYS_FOR_RANK - 1) * DAY
      let adjustment := min st2.previousQueueDuration maxAdjustment
      let qa := e.time - adjustment
      match st2.lastDisqualifiedEvent with
      | some dq =>
        let interval : ℚ := ((e.time - dq.time : Int) : ℚ) / (DAY : ℚ)
        let pd : Int := min (interval / 7).floor maxPenaltyDays
        { st2 with queuedAt := some (qa + pd * DAY), penaltyDays := pd }
      | none => { st2 with queuedAt := some qa }
  | .disqualify =>
    { st with
      lastDisqualifiedEvent := some e
      previousQueueDuration :=
        match st.queuedAt with
        | some qa => e.time - qa
        | none => st.previousQueueDuration
      nominators := [] }
  | .rank => { st with previousQueueDuration := 0, queuedAt := none }
  | .nominate => { st with nominators := st.nominators ++ [e.userId] }
  | .nominationReset => { st with nominators := [] }

/-- Replay the full chronological event list. -/
def replay (currentIds : List Int) (maxPenaltyDays : Int)
    (events : List QEvent) : ReplayState :=
  events.foldl (replayStep currentIds maxPenaltyDays) initialReplayState

/-- The queue date `setQueueDate` assigns:
`new Date(queuedAt! + MINIMUM_DAYS_FOR_RANK * DAY)`.  The `!` is a
compile-time assertion only; at runtime a `null` `queuedAt` is coerced to `0`
by the JS `+`, hence `Option.getD 0`.  The function never throws. -/
def setQueueDate (currentIds : List Int) (maxPenaltyDays : Int)
    (events : List QEvent) : Int :=
  ((replay currentIds maxPenaltyDays events).queuedAt.getD 0)
    + MINIMUM_DAYS_FOR_RANK * DAY

/-! ### Distributions (`uniformSumCDF`) and probability (`probabilityAfter`), §4.1–§4.2

`DELAY_MIN` and `DELAY_MAX` are in the missing `constants.ts`; the spec gives
no example values, so they are kept as parameters `dmin`, `dmax`. -/

/-- `sgn(x)`. -/
def sgn (x : ℚ) : ℚ := if x > 0 then 1 else if x < 0 then -1 else 0

/-- `perm(n, k)`: the loop `for (i = 0; i < k; i++) p = p * (n - i)`. -/
def permProd (n k : ℕ) : ℚ := ∏ i in Finset.range k, ((n : ℚ) - (i : ℚ))

/-- `factorial(n) = perm(n, n)`. -/
def factorialCode (n : ℕ) : ℚ := permProd n n

/-- `binomial(n, k)`: `0` when `k > n` (the `k < 0` guard is vacuous for `ℕ`),
otherwise the loop product `p = p * ((n - i) / (k - i))`. -/
def binomialCode (n k : ℕ) : ℚ :=
  if k > n then 0
  else ∏ i in Finset.range k, (((n : ℚ) - (i : ℚ)) / ((k : ℚ) - (i : ℚ)))

/-- `uniformSumCDF(n, x)`: CDF of the sum of `n` iid uniform [0,1] variables. -/
def uniformSumCDF (n : ℕ) (x : ℚ) : ℚ :=
  if x < 0 then 0
  else if x > (n : ℚ) then 1
  else
    (1/2) +
      (∑ k in Finset.range (n + 1),
        (-1 : ℚ) ^ k * binomialCode n k * sgn (x - (k : ℚ)) * (x - (k : ℚ)) ^ n)
      / (2 * factorialCode n)

/-- `Math.floor(q * 100000) / 100000`, the 5-decimal truncation applied by
`probabilityAfter` to `sum / 4`. -/
def floor5 (q : ℚ) : ℚ := (((q * 100000).floor : Int) : ℚ) / 100000

/-- The value `1 - uniformSumCDF(m, (seconds - m*DELAY_MIN) / (DELAY_MAX - DELAY_MIN))`
computed (and memoized under key `m = pos + permSum`) inside `probabilityAfter`. -/
def termValue (dmin dmax seconds : ℚ) (m : ℕ) : ℚ :=
  1 - uniformSumCDF m ((seconds - (m : ℚ) * dmin) / (dmax - dmin))

/-- Lookup in the per-call memo object `{ [key: number]: number }`. -/
def memoLookup : List (ℕ × ℚ) → ℕ → Option ℚ
  | [], _ => none
  | (k, v) :: rest, key => if k = key then some v else memoLookup rest key

/-- All sums of ordered pairs of entries of `l` at distinct positions:
`permutations(otherModes, 2)` from itertools, each permutation reduced by `+`. -/
def permPairSums (l : List ℕ) : List ℕ :=
  l.enum.flatMap fun p => l.enum.filterMap fun q =>
    if p.1 ≠ q.1 then some (p.2 + q.2) else none

/-- The `permSums` list for a queue position `pos`: starts as `[0]`, replaced
when `otherModes` is present (in JS any array, even empty, is truthy) for
positions 2, 3 and 4. -/
def permSumsFor (otherModes : Option (List ℕ)) (pos : ℕ) : List ℕ :=
  match otherModes with
  | none => [0]
  | some l =>
    if pos = 2 then l
    else if pos = 3 then permPairSums l
    else if pos = 4 then [l.sum]
    else [0]

/-- The inner `for (const permSum of permSums)` loop: threads the memo and
accumulates `modeSum`.  Returns the updated memo and the accumulated sum. -/
def runPermSums (dmin dmax seconds : ℚ) (pos : ℕ) :
    List ℕ → List (ℕ × ℚ) → List (ℕ × ℚ) × ℚ
  | [], memo => (memo, 0)
  | s :: rest, memo =>
    match memoLookup memo (pos + s) with
    | some v =>
      let r := runPermSums dmin dmax seconds pos rest memo
      (r.1, v + r.2)
    | none =>
      let v := termValue dmin dmax seconds (pos + s)
      let r := runPermSums dmin dmax seconds pos rest ((pos + s, v) :: memo)
      (r.1, v + r.2)

/-- The outer `for (let pos = 1; pos <= 4; pos++)` loop: threads the memo and
accumulates `sum += modeSum / permSums.length`. -/
def runModes (dmin dmax seconds : ℚ) (otherModes : Option (List ℕ)) :
    List ℕ → List (ℕ × ℚ) → List (ℕ × ℚ) × ℚ
  | [], memo => (memo, 0)
  | pos :: rest, memo =>
    let ps := permSumsFor otherModes pos
    let r1 := runPermSums dmin dmax seconds pos ps memo
    let r2 := runModes dmin dmax seconds otherModes rest r1.1
    (r2.1, r1.2 / (ps.length : ℚ) + r2.2)

/-- `probabilityAfter(seconds, otherModes?)` with its per-call memo table. -/
def probabilityAfter (dmin dmax : ℚ) (seconds : ℚ)
    (otherModes : Option (List ℕ)) : ℚ :=
  floor5 ((runModes dmin dmax seconds otherModes [1, 2, 3, 4] []).2 / 4)

/-- The sum `Σ values` over one position's `permSums`, with every term
computed directly (no memo). -/
def modeSumDirect (dmin dmax seconds : ℚ) (pos : ℕ) (ps : List ℕ) : ℚ :=
  (ps.map fun s => termValue dmin dmax seconds (pos + s)).sum

/-- The unmemoized form of `probabilityAfter`: every term computed directly as
`1 - uniformSumCDF(pos + permSum, (seconds - (pos + permSum)·DELAY_MIN) /
(DELAY_MAX - DELAY_MIN))`. -/
def probabilityAfterDirect (dmin dmax : ℚ) (seconds : ℚ)
    (otherModes : Option (List ℕ)) : ℚ :=
  floor5
    ((([1, 2, 3, 4].map fun pos =>
        modeSumDirect dmin dmax seconds pos (permSumsFor otherModes pos)
          / ((permSumsFor otherModes pos).length : ℚ)).sum) / 4)

/-! ### Rank-date projector (`adjustRankDates`, `calcEarlyProbability`,
`adjustAllRankDates`), §4.4

A `BSet` carries exactly the fields the projector reads or writes; the
identity fields (`id`, `artist`, `title`, `mapper`, `mapperId`, `beatmaps`)
are never touched by any of the embedded functions and are omitted.
JS property accesses through `!` on a `null` field throw; the embedded
functions return `none` in exactly those cases. -/

/-- The scheduling-relevant fields of a `BeatmapSet`. -/
structure BSet where
  queueDate : Option Int
  rankDate : Option Int
  rankDateEarly : Option Int
  probability : Option ℚ
  unresolved : Bool
  mode : Nat
deriving DecidableEq, Repr

/-- `roundMinutes(ms, true)`: floor to the `RANK_INTERVAL`-minute grid. -/
def roundMinutesDown (ms : Int) : Int :=
  (ms.fdiv (RANK_INTERVAL * MINUTE)) * (RANK_INTERVAL * MINUTE)

/-- `roundMinutes(ms)`: ceil to the `RANK_INTERVAL`-minute grid
(`Math.ceil x = -Math.floor (-x)`). -/
def roundMinutesUp (ms : Int) : Int :=
  -(((-ms).fdiv (RANK_INTERVAL * MINUTE)) * (RANK_INTERVAL * MINUTE))

/-- `intervalTimeDelta(date)`: `(date.getUTCMinutes() % 20) * 60 +
date.getSeconds()` in seconds.  `getUTCMinutes` of an epoch-ms value is
`(ms.fdiv MINUTE).emod 60`; `getSeconds` uses the local time zone, whose
offset is a whole number of minutes (the deployment runtime is UTC), so it
equals the UTC seconds `(ms.fdiv 1000).emod 60`. -/
def intervalTimeDelta (ms : Int) : Int :=
  ((ms.fdiv MINUTE).emod 60).emod 20 * 60 + (ms.fdiv 1000).emod 60

/-- The spec's wording for `intervalTimeDelta` (§4.4 Step C): "(UTC minutes
mod RANK_INTERVAL)·60 + UTC seconds". -/
def intervalTimeDeltaSpec (ms : Int) : Int :=
  ((ms.fdiv MINUTE).emod 60).emod RANK_INTERVAL * 60 + (ms.fdiv 1000).emod 60

/-- Steps A–D of one iteration of `adjustRankDates` (daily-cap compare map,
early time, probability, round up).  `none` when
`qualifiedMap.queueDate!.getTime()` throws. -/
def stepABCD (dmin dmax : ℚ) (rankedLen : ℕ) (combined : List BSet)
    (i : ℕ) (q : BSet) : Option BSet := do
  let fm := ((combined.take i).filter fun b => !b.unresolved).reverse
  let compareMap := fm.get? (RANK_PER_DAY - 1)
  let compareDate : Int :=
    match compareMap with
    | some cm =>
      match cm.rankDate with
      | some rd =>
        rd + DAY +
          (if rankedLen + RANK_PER_DAY ≤ i then RANK_INTERVAL * MINUTE else 0)
      | none => 0
    | none => 0
  let qd ← q.queueDate
  let rde := max qd compareDate
  let prob : Option ℚ :=
    if compareDate < qd ∨ i < rankedLen + RANK_PER_DAY then
      some (probabilityAfter dmin dmax ((intervalTimeDelta rde : Int) : ℚ) none)
    else none
  pure { q with
          rankDateEarly := some rde
          probability := prob
          rankDate := some (roundMinutesUp rde) }

/-- The outer `.every` of step E2: every map of `slice` has
`roundMinutes(rankDate!, true) ≥ bound`; short-circuits on the first `false`,
`none` when it reads a `null` `rankDate` first. -/
def everyFloorGe (slice : List BSet) (bound : Int) : Option Bool :=
  match slice with
  | [] => some true
  | b :: rest =>
    match b.rankDate with
    | none => none
    | some brd =>
      if bound ≤ roundMinutesDown brd then everyFloorGe rest bound
      else some false

/-- The inner `.every` of step E2: every map of `slice` has
`roundMinutes(rankDate!, true)` equal to that of
`filteredMaps[RANK_PER_RUN - 1]`; the pivot is looked up inside the callback,
so a too-short `filteredMaps` throws (`none`) only when the callback runs. -/
def everyFloorEqPivot (slice fm : List BSet) : Option Bool :=
  match slice with
  | [] => some true
  | b :: rest =>
    match b.rankDate with
    | none => none
    | some brd =>
      match fm.get? (RANK_PER_RUN - 1) with
      | none => none
      | some p =>
        match p.rankDate with
        | none => none
        | some prd =>
          if roundMinutesDown brd = roundMinutesDown prd then
            everyFloorEqPivot rest fm
          else some false

/-- Step E of one iteration (per-run cap): E1 back-propagate pull-forward,
then E2 slot-overflow.  Runs only when `i - RANK_PER_RUN ≥ 0` and the map is
not unresolved. -/
def stepE (combined : List BSet) (i : ℕ) (q1 : BSet) : Option BSet := do
  if RANK_PER_RUN ≤ i ∧ q1.unresolved = false then
    let fm := ((combined.take i).filter fun b => !b.unresolved).reverse
    match fm.get? 0 with
    | none => none
    | some f0 => do
      let q2 ←
        if f0.queueDate ≠ none then
          match f0.rankDate with
          | none => none
          | some f0rd =>
            match q1.rankDate with
            | none => none
            | some q1rd =>
              if q1rd < roundMinutesDown f0rd then
                pure { q1 with
                        rankDate := some (roundMinutesDown f0rd)
                        rankDateEarly := some (roundMinutesDown f0rd)
                        probability := some 0 }
              else pure q1
        else pure q1
      let rde2 ← q2.rankDateEarly
      let outer ← everyFloorGe (fm.take RANK_PER_RUN) (roundMinutesDown rde2)
      if outer then
        let inner ← everyFloorEqPivot (fm.take RANK_PER_RUN) fm
        match f0.rankDate with
        | none => none
        | some f0rd =>
          let newRd :=
            if inner then roundMinutesDown f0rd + RANK_INTERVAL * MINUTE
            else roundMinutesDown f0rd
          pure { q2 with
                  rankDate := some newRd
                  rankDateEarly := some newRd
                  probability := some 0 }
      else pure q2
  else pure q1

/-- One full iteration of the `for` loop of `adjustRankDates` at index `i`:
the updated `combined[i]`. -/
def processIndex (dmin dmax : ℚ) (rankedLen : ℕ) (combined : List BSet)
    (i : ℕ) : Option BSet := do
  let q ← combined.get? i
  let q1 ← stepABCD dmin dmax rankedLen combined i q
  stepE combined i q1

/-- The `for (let i = rankedMaps.length + start; i < combined.length; i++)`
loop, acting on the combined list.  Structural recursion on a fuel counter:
any `fuel ≥ combined.length - i` yields the loop's behaviour, because each
iteration increments `i` by one and preserves the length. -/
def adjustLoop (dmin dmax : ℚ) (rankedLen : ℕ) :
    ℕ → List BSet → ℕ → Option (List BSet)
  | 0, combined, _ => some combined
  | fuel + 1, combined, i =>
    if i < combined.length then
      match processIndex dmin dmax rankedLen combined i with
      | none => none
      | some q => adjustLoop dmin dmax rankedLen fuel (combined.set i q) (i + 1)
    else some combined

/-- `adjustRankDates(qualifiedMaps, rankedMaps, start)` on the combined list
`[...rankedMaps, ...qualifiedMaps]`; the result is the final combined list. -/
def adjustRankDatesCombined (dmin dmax : ℚ)
    (qualifiedMaps rankedMaps : List BSet) (start : ℕ) : Option (List BSet) :=
  adjustLoop dmin dmax rankedMaps.length
    (rankedMaps ++ qualifiedMaps).length (rankedMaps ++ qualifiedMaps)
    (rankedMaps.length + start)

/-- `adjustRankDates`: the qualified maps after the loop (the JS function
mutates `qualifiedMaps` in place; the ranked prefix is returned by
`adjustRankDatesCombined`). -/
def adjustRankDates (dmin dmax : ℚ) (qualifiedMaps rankedMaps : List BSet)
    (start : ℕ) : Option (List BSet) :=
  (adjustRankDatesCombined dmin dmax qualifiedMaps rankedMaps start).map
    (List.drop rankedMaps.length)

/-- The bucket key of the first pass of `calcEarlyProbability`:
`(probability ?? 0) > SPLIT ? roundMinutes(rankDateEarly!, true) : rankDate!`. -/
def bucketKey (b : BSet) : Option Int :=
  if SPLIT < b.probability.getD 0 then
    match b.rankDateEarly with
    | none => none
    | some rde => some (roundMinutesDown rde)
  else
    match b.rankDate with
    | none => none
    | some rd => some rd

/-- `counts[mode] += 1` on a length-4 count vector. -/
def bumpMode (counts : List ℕ) (mode : ℕ) : List ℕ :=
  counts.set mode (counts.getD mode 0 + 1)

/-- Insert into the `rankDates` object: create `[0,0,0,0]` on a fresh key. -/
def bucketsInsert : List (Int × List ℕ) → Int → ℕ → List (Int × List ℕ)
  | [], key, mode => [(key, bumpMode [0, 0, 0, 0] mode)]
  | (k, v) :: rest, key, mode =>
    if k = key then (k, bumpMode v mode) :: rest
    else (k, v) :: bucketsInsert rest key mode

/-- Property lookup on the `rankDates` object (`rankDates[key]`). -/
def bucketsLookup : List (Int × List ℕ) → Int → Option (List ℕ)
  | [], _ => none
  | (k, v) :: rest, key => if k = key then some v else bucketsLookup rest key

/-- First pass of `calcEarlyProbability` over one mode's list. -/
def buildBucketsOne : List BSet → List (Int × List ℕ) →
    Option (List (Int × List ℕ))
  | [], m => some m
  | b :: rest, m => do
    let key ← bucketKey b
    buildBucketsOne rest (bucketsInsert m key b.mode)

/-- First pass of `calcEarlyProbability` over all modes. -/
def buildBuckets : List (List BSet) → List (Int × List ℕ) →
    Option (List (Int × List ℕ))
  | [], m => some m
  | l :: ls, m => do
    let m' ← buildBucketsOne l m
    buildBuckets ls m'

/-- `counts.filter((_, mode) => mode != ownMode)`: drop the entry at index
`ownMode`. -/
def dropOwnMode (counts : List ℕ) (ownMode : ℕ) : List ℕ :=
  counts.enum.filterMap fun p => if p.1 ≠ ownMode then some p.2 else none

/-- Second pass of `calcEarlyProbability` over one mode's list: recompute the
probability of each set with non-null probability and distinct early/rounded
times; `rankDates[key]?.filter(...)` propagates an absent bucket as an absent
`otherModes` argument. -/
def secondPassOne (dmin dmax : ℚ) (rankDates : List (Int × List ℕ)) :
    List BSet → Option (List BSet)
  | [] => some []
  | b :: rest => do
    let rde ← b.rankDateEarly
    let key := roundMinutesDown rde
    let b' ←
      if b.probability ≠ none then
        match b.rankDate with
        | none => none
        | some rd =>
          if rde ≠ rd then
            let otherModes : Option (List ℕ) :=
              (bucketsLookup rankDates key).map fun counts =>
                dropOwnMode counts b.mode
            pure { b with
                    probability :=
                      some (probabilityAfter dmin dmax
                        ((intervalTimeDelta rde : Int) : ℚ) otherModes) }
          else pure b
      else pure b
    let rest' ← secondPassOne dmin dmax rankDates rest
    pure (b' :: rest')

/-- Second pass of `calcEarlyProbability` over all modes. -/
def secondPass (dmin dmax : ℚ) (rankDates : List (Int × List ℕ)) :
    List (List BSet) → Option (List (List BSet))
  | [] => some []
  | l :: ls => do
    let l' ← secondPassOne dmin dmax rankDates l
    let ls' ← secondPass dmin dmax rankDates ls
    pure (l' :: ls')

/-- `calcEarlyProbability(qualifiedMaps)`: bucket every qualified map, then
recompute cross-mode probabilities. -/
def calcEarlyProbability (dmin dmax : ℚ) (qualifiedMaps : List (List BSet)) :
    Option (List (List BSet)) := do
  let rankDates ← buildBuckets qualifiedMaps []
  secondPass dmin dmax rankDates qualifiedMaps

/-- `adjustAllRankDates(qualifiedMaps, rankedMaps)`: run `adjustRankDates`
(with `start = 0`) for each of the four modes, then the cross-mode
re-estimation.  Both collections are 4-element arrays of per-mode lists. -/
def adjustAllRankDates (dmin dmax : ℚ)
    (qualifiedMaps rankedMaps : List (List BSet)) :
    Option (List (List BSet)) :=
  match qualifiedMaps, rankedMaps with
  | [q0, q1, q2, q3], [r0, r1, r2, r3] => do
    let q0' ← adjustRankDates dmin dmax q0 r0 0
    let q1' ← adjustRankDates dmin dmax q1 r1 0
    let q2' ← adjustRankDates dmin dmax q2 r2 0
    let q3' ← adjustRankDates dmin dmax q3 r3 0
    calcEarlyProbability dmin dmax [q0', q1', q2', q3']
  | _, _ => none

/-! ### Concrete instances used by individual claims

Times are epoch milliseconds; `1200000` is one 20-minute rank interval. -/

/-- Event log for scenario S2: qualify at `t0`; disqualify 3 days later with
nominators `[u1, u2]` and beatmap ids `bs` recorded on the event; nominations
by `u1`, `u2` restoring the same nominator set; re-qualify 10 days after the
disqualify. -/
def c3Events (t0 u1 u2 : Int) (bs : List Int) : List QEvent :=
  [ ⟨.qualify, t0, [], [], 0⟩,
    ⟨.disqualify, t0 + 3 * DAY, bs, [u1, u2], 0⟩,
    ⟨.nominate, t0 + 4 * DAY, [], [], u1⟩,
    ⟨.nominate, t0 + 5 * DAY, [], [], u2⟩,
    ⟨.qualify, t0 + 13 * DAY, [], [], 0⟩ ]

/-- A recently ranked set (rank date 122400000, two intervals past
120000000), used as scheduling context. -/
def c4R : BSet :=
  { queueDate := none, rankDate := some 122400000, rankDateEarly := none
    probability := none, unresolved := false, mode := 0 }

/-- A qualified set whose queue date 120000000 lies exactly on the interval
grid. -/
def c4Qa : BSet :=
  { queueDate := some 120000000, rankDate := some 0, rankDateEarly := none
    probability := none, unresolved := false, mode := 0 }

/-- A qualified set whose queue date 120600000 lies 10 minutes past the
interval boundary 120000000. -/
def c4Qb : BSet :=
  { queueDate := some 120600000, rankDate := some 0, rankDateEarly := none
    probability := none, unresolved := false, mode := 0 }

/-- `c4Qa` after `adjustAllRankDates`. -/
def c4OutA : BSet :=
  { queueDate := some 120000000, rankDate := some 120000000
    rankDateEarly := some 120000000, probability := some 1
    unresolved := false, mode := 0 }

/-- `c4Qb` after `adjustAllRankDates`: both dates were rewritten to
120000000 by the step-E2 slot branch, *below* the queue date 120600000. -/
def c4OutB : BSet :=
  { queueDate := some 120600000, rankDate := some 120000000
    rankDateEarly := some 120000000, probability := some 0
    unresolved := false, mode := 0 }

/-- A qualified set with queue date exactly at the interval boundary
1200000. -/
def c5M : BSet :=
  { queueDate := some 1200000, rankDate := some 0, rankDateEarly := none
    probability := none, unresolved := false, mode := 0 }

/-- Like `c5M` but flagged unresolved. -/
def c5MU : BSet :=
  { queueDate := some 1200000, rankDate := some 0, rankDateEarly := none
    probability := none, unresolved := true, mode := 0 }

/-- `c5M` after projection when its interval slot is still free. -/
def c5Out1 : BSet :=
  { queueDate := some 1200000, rankDate := some 1200000
    rankDateEarly := some 1200000, probability := some 1
    unresolved := false, mode := 0 }

/-- The fourth map after projection: pushed one interval later with
probability 0 by the step-E2 overflow branch. -/
def c5Out4 : BSet :=
  { queueDate := some 1200000, rankDate := some 2400000
    rankDateEarly := some 2400000, probability := some 0
    unresolved := false, mode := 0 }

/-- `c5MU` after projection: step E is skipped for unresolved maps, so it
keeps the saturated slot 1200000. -/
def c5OutU : BSet :=
  { queueDate := some 1200000, rankDate := some 1200000
    rankDateEarly := some 1200000, probability := some 1
    unresolved := true, mode := 0 }

/-- A ranked context set for the frame-property witness. -/
def c8R : BSet :=
  { queueDate := none, rankDate := some 999, rankDateEarly := none
    probability := none, unresolved := false, mode := 0 }

/-- A qualified set for the frame-property witness. -/
def c8Q : BSet :=
  { queueDate := some 1200000, rankDate := some 0, rankDateEarly := none
    probability := none, unresolved := false, mode := 0 }

/-- The combined list after `adjustRankDatesCombined` on `[c8Q]`, `[c8R]`:
the ranked prefix is untouched. -/
def c8Out : List BSet :=
  [ c8R,
    { queueDate := some 1200000, rankDate := some 1200000
      rankDateEarly := some 1200000, probability := some 1
      unresolved := false, mode := 0 } ]

/-- A qualified set whose probability is below `SPLIT` and whose
`rankDateEarly` (100) floors to bucket 0 while its first-pass bucket key is
its `rankDate` 1200000: the second pass of `calcEarlyProbability` looks up
the absent bucket 0. -/
def c10B : BSet :=
  { queueDate := some 0, rankDate := some 1200000, rankDateEarly := some 100
    probability := some 0, unresolved := false, mode := 0 }

/-! ## Theorems -/

/-- If the replay ends with `queuedAt = null`, `setQueueDate` still assigns a
queue date: the JS `+` coerces `null` to `0`. -/
theorem setQueueDate_of_queuedAt_none (currentIds : List Int)
    (maxPenaltyDays : Int) (events : List QEvent)
    (h : (replay currentIds maxPenaltyDays events).queuedAt = none) :
    setQueueDate currentIds maxPenaltyDays events
      = MINIMUM_DAYS_FOR_RANK * DAY := by
  simp [setQueueDate, h]

/-- Claim C1 (counterexample): on the empty event log — no `qualify` event,
so the replay ends with `queuedAt = null` — `setQueueDate` does not fail and
does not skip the set: it assigns the concrete queue date
`0 + MINIMUM_DAYS_FOR_RANK·DAY = 604800000` ms (1970-01-08).  No
`EventLogInconsistent` error path exists in the code: the `queuedAt!`
non-null assertion is erased at runtime and `null` is coerced to `0`. -/
theorem c1_counterexample :
    (replay [] 2 []).queuedAt = none ∧ setQueueDate [] 2 [] = 604800000 := by
  constructor
  · rfl
  · rfl

/-- Claim C1 (amended): if event replay ends with `queuedAt = null` for a set
reported as qualified, `setQueueDate` does not fail with
`EventLogInconsistent`; it assigns
`queueDate = epoch + MINIMUM_DAYS_FOR_RANK·DAY` (the null is coerced to 0). -/
theorem c1_queuedAt_null_assigns (currentIds : List Int)
    (maxPenaltyDays : Int) (events : List QEvent)
    (h : (replay currentIds maxPenaltyDays events).queuedAt = none) :
    setQueueDate currentIds maxPenaltyDays events
      = MINIMUM_DAYS_FOR_RANK * DAY :=
  setQueueDate_of_queuedAt_none currentIds maxPenaltyDays events h

/-- Claim C1 (witness): the amended claim at the empty event log. -/
theorem c1_witness :
    (replay [3] 2 []).queuedAt = none ∧
      setQueueDate [3] 2 [] = MINIMUM_DAYS_FOR_RANK * DAY :=
  ⟨by rfl, c1_queuedAt_null_assigns [3] 2 [] (by rfl)⟩

/-- Claim C6: for every date (epoch-ms value), `intervalTimeDelta` equals
(UTC minutes mod RANK_INTERVAL)·60 + UTC seconds with RANK_INTERVAL the
configured rank-interval constant (20): the hard-coded `% 20` agrees with
`% RANK_INTERVAL`. -/
theorem c6_intervalTimeDelta (ms : Int) :
    intervalTimeDelta ms = intervalTimeDeltaSpec ms := rfl

/-! ### The code's factorial/binomial loops compute the textbook values -/

theorem permProd_eq_descFactorial (n : ℕ) :
    ∀ k : ℕ, k ≤ n → permProd n k = (n.descFactorial k : ℚ) := by
  intro k
  induction k with
  | zero => intro _; simp [permProd]
  | succ k ih =>
    intro h
    have hk : k ≤ n := by omega
    rw [permProd, Finset.prod_range_succ, ← permProd, ih hk,
      Nat.descFactorial_succ, Nat.cast_mul, Nat.cast_sub hk]
    ring

theorem factorialCode_eq (n : ℕ) : factorialCode n = (n.factorial : ℚ) := by
  rw [factorialCode, permProd_eq_descFactorial n n le_rfl, Nat.descFactorial_self]

theorem binomialCode_eq (n k : ℕ) : binomialCode n k = (n.choose k : ℚ) := by
  unfold binomialCode
  by_cases h : k > n
  · rw [if_pos h, Nat.choose_eq_zero_of_lt h, Nat.cast_zero]
  · push_neg at h
    rw [if_neg (by omega), Finset.prod_div_distrib]
    have h1 : (∏ i in Finset.range k, ((n : ℚ) - (i : ℚ))) = permProd n k := rfl
    have h2 : (∏ i in Finset.range k, ((k : ℚ) - (i : ℚ))) = permProd k k := rfl
    rw [h1, h2, permProd_eq_descFactorial n k h, permProd_eq_descFactorial k k le_rfl,
      Nat.descFactorial_self, Nat.descFactorial_eq_factorial_mul_choose, Nat.cast_mul]
    exact mul_div_cancel_left₀ _ (by exact_mod_cast k.factorial_ne_zero)

/-! ### The alternating finite-difference identity behind the CDF boundary
values -/

theorem alternating_pascal (n : ℕ) (g : ℕ → ℚ) :
    (∑ k in Finset.range (n + 2), (-1 : ℚ) ^ k * ((n + 1).choose k : ℚ) * g k)
      = ∑ k in Finset.range (n + 1),
          (-1 : ℚ) ^ k * (n.choose k : ℚ) * (g k - g (k + 1)) := by
  have e1 := Finset.sum_range_succ'
    (fun k => (-1 : ℚ) ^ k * ((n + 1).choose k : ℚ) * g k) (n + 1)
  have e2 := Finset.sum_range_succ'
    (fun k => (-1 : ℚ) ^ k * (n.choose k : ℚ) * g k) (n + 1)
  have e3 := Finset.sum_range_succ
    (fun k => (-1 : ℚ) ^ k * (n.choose k : ℚ) * g k) (n + 1)
  rw [Nat.choose_succ_self, Nat.cast_zero, mul_zero, zero_mul, add_zero] at e3
  -- e23 : ∑ j in range (n+1), (-1)^(j+1) * (n.choose (j+1)) * g (j+1)
  --        = ∑ k in range (n+1), (-1)^k * (n.choose k) * g k - g 0
  have e23 : (∑ j in Finset.range (n + 1),
        (-1 : ℚ) ^ (j + 1) * (n.choose (j + 1) : ℚ) * g (j + 1))
      = (∑ k in Finset.range (n + 1), (-1 : ℚ) ^ k * (n.choose k : ℚ) * g k)
          - g 0 := by
    rw [← e3, e2]; simp
  rw [e1]
  simp only [Nat.choose_succ_succ, Nat.cast_add]
  have expand : ∀ j : ℕ,
      (-1 : ℚ) ^ (j + 1) * ((n.choose j : ℚ) + (n.choose (j + 1) : ℚ)) * g (j + 1)
        = -((-1 : ℚ) ^ j * (n.choose j : ℚ) * g (j + 1))
          + (-1 : ℚ) ^ (j + 1) * (n.choose (j + 1) : ℚ) * g (j + 1) := by
    intro j; rw [pow_succ]; ring
  rw [Finset.sum_congr rfl fun j _ => expand j, Finset.sum_add_distrib, e23]
  rw [Finset.sum_neg_distrib]
  simp only [Nat.choose_zero_right, Nat.cast_one, pow_zero, one_mul, mul_one]
  have rhs : (∑ k in Finset.range (n + 1),
        (-1 : ℚ) ^ k * (n.choose k : ℚ) * (g k - g (k + 1)))
      = (∑ k in Finset.range (n + 1), (-1 : ℚ) ^ k * (n.choose k : ℚ) * g k)
        - ∑ k in Finset.range (n + 1), (-1 : ℚ) ^ k * (n.choose k : ℚ) * g (k + 1) := by
    rw [← Finset.sum_sub_distrib]
    exact Finset.sum_congr rfl fun k _ => by ring
  rw [rhs]
  ring

/-- The `n`-th alternating binomial sum of the shifted powers `(y - k)^i`
vanishes for `i < n` and equals `n!` at `i = n` (the discrete analogue of
differentiating a degree-`i` polynomial `n` times). -/
theorem sum_choose_sub_pow :
    ∀ n i : ℕ, i ≤ n → ∀ y : ℚ,
      (∑ k in Finset.range (n + 1), (-1 : ℚ) ^ k * (n.choose k : ℚ) * (y - k) ^ i)
        = if i = n then (n.factorial : ℚ) else 0 := by
  intro n
  induction n with
  | zero =>
    intro i hi y
    interval_cases i
    simp [Nat.factorial]
  | succ n IH =>
    intro i hi y
    rw [alternating_pascal n (fun k => (y - (k : ℚ)) ^ i)]
    have hdiff : ∀ k : ℕ, ((y - (k : ℚ)) ^ i - (y - ((k + 1 : ℕ) : ℚ)) ^ i)
        = ∑ j in Finset.range i, (i.choose j : ℚ) * (y - ((k + 1 : ℕ) : ℚ)) ^ j := by
      intro k
      have hb := add_pow (y - (k : ℚ) - 1) 1 i
      rw [Finset.sum_range_succ, Nat.choose_self, Nat.cast_one] at hb
      have hx : y - (k : ℚ) - 1 + 1 = y - (k : ℚ) := by ring
      rw [hx] at hb
      have hc : ((k + 1 : ℕ) : ℚ) = (k : ℚ) + 1 := by push_cast; ring
      rw [hc]
      have hy : y - ((k : ℚ) + 1) = y - (k : ℚ) - 1 := by ring
      rw [hy]
      rw [hb]
      simp only [one_pow, mul_one]
      rw [Finset.sum_congr rfl fun j _ => mul_comm ((y - (k : ℚ) - 1) ^ j)
        ((i.choose j : ℚ))]
      ring
    rw [Finset.sum_congr rfl fun k _ => by rw [hdiff k]]
    simp only [Finset.mul_sum]
    rw [Finset.sum_comm]
    have hshift : ∀ j k : ℕ, (-1 : ℚ) ^ k * (n.choose k : ℚ)
          * ((i.choose j : ℚ) * (y - ((k + 1 : ℕ) : ℚ)) ^ j)
        = (i.choose j : ℚ) * ((-1 : ℚ) ^ k * (n.choose k : ℚ) * ((y - 1) - (k : ℚ)) ^ j) := by
      intro j k
      have : y - ((k + 1 : ℕ) : ℚ) = (y - 1) - (k : ℚ) := by push_cast; ring
      rw [this]; ring
    rw [Finset.sum_congr rfl fun j _ => Finset.sum_congr rfl fun k _ => hshift j k]
    rw [Finset.sum_congr rfl fun j hj => by
      rw [← Finset.mul_sum, IH j (by
        have := Finset.mem_range.1 hj; omega) (y - 1)]]
    simp only [mul_ite, mul_zero]
    rw [Finset.sum_ite_eq' (Finset.range i) n fun j => (i.choose j : ℚ) * (n.factorial : ℚ)]
    by_cases hin : i = n + 1
    · subst hin
      rw [if_pos (Finset.mem_range.2 (by omega)), if_pos rfl]
      rw [Nat.choose_succ_self_right, Nat.factorial_succ]
      push_cast
      ring
    · rw [if_neg (by simp only [Finset.mem_range]; omega), if_neg (by omega)]

/-- For `x ≤ 0` the CDF is 0: for `x < 0` by the explicit branch, and at
`x = 0` the signed-power formula itself evaluates to 0. -/
theorem uniformSumCDF_of_nonpos (n : ℕ) (hn : 1 ≤ n) (x : ℚ) (hx : x ≤ 0) :
    uniformSumCDF n x = 0 := by
  rcases lt_or_eq_of_le hx with h | h
  · rw [uniformSumCDF, if_pos h]
  · subst h
    rw [uniformSumCDF, if_neg (lt_irrefl 0),
      if_neg (not_lt.2 (by exact_mod_cast Nat.zero_le n))]
    have hS : (∑ k in Finset.range (n + 1),
        (-1 : ℚ) ^ k * binomialCode n k * sgn (0 - (k : ℚ)) * (0 - (k : ℚ)) ^ n)
          = -(n.factorial : ℚ) := by
      have hpt : ∀ k ∈ Finset.range (n + 1),
          (-1 : ℚ) ^ k * binomialCode n k * sgn (0 - (k : ℚ)) * (0 - (k : ℚ)) ^ n
            = -((-1 : ℚ) ^ k * (n.choose k : ℚ) * ((0 : ℚ) - (k : ℚ)) ^ n) := by
        intro k _
        rw [binomialCode_eq]
        match k with
        | 0 =>
          simp [sgn, zero_pow (show n ≠ 0 by omega)]
        | k + 1 =>
          have hneg : (0 : ℚ) - ((k + 1 : ℕ) : ℚ) < 0 := by
            push_cast
            have : (0 : ℚ) ≤ (k : ℚ) := by positivity
            linarith
          rw [sgn, if_neg (by linarith), if_pos hneg]
          ring
      rw [Finset.sum_congr rfl hpt, Finset.sum_neg_distrib,
        sum_choose_sub_pow n n le_rfl 0, if_pos rfl]
    rw [hS, factorialCode_eq]
    have hf : (n.factorial : ℚ) ≠ 0 := by exact_mod_cast n.factorial_ne_zero
    field_simp

/-- For `x ≥ n` the CDF is 1: for `x > n` by the explicit branch, and at
`x = n` the signed-power formula itself evaluates to 1. -/
theorem uniformSumCDF_of_ge (n : ℕ) (hn : 1 ≤ n) (x : ℚ) (hx : (n : ℚ) ≤ x) :
    uniformSumCDF n x = 1 := by
  have hn0 : (0 : ℚ) < (n : ℚ) := by exact_mod_cast Nat.pos_of_ne_zero (by omega)
  rcases eq_or_lt_of_le hx with h | h
  · subst h
    rw [uniformSumCDF, if_neg (not_lt.2 (by linarith)), if_neg (lt_irrefl _)]
    have hS : (∑ k in Finset.range (n + 1),
        (-1 : ℚ) ^ k * binomialCode n k * sgn ((n : ℚ) - (k : ℚ))
          * ((n : ℚ) - (k : ℚ)) ^ n)
          = (n.factorial : ℚ) := by
      have hpt : ∀ k ∈ Finset.range (n + 1),
          (-1 : ℚ) ^ k * binomialCode n k * sgn ((n : ℚ) - (k : ℚ))
              * ((n : ℚ) - (k : ℚ)) ^ n
            = (-1 : ℚ) ^ k * (n.choose k : ℚ) * ((n : ℚ) - (k : ℚ)) ^ n := by
        intro k hk
        rw [binomialCode_eq]
        have hk' : k ≤ n := by
          have := Finset.mem_range.1 hk; omega
        rcases lt_or_eq_of_le hk' with hlt | heq
        · have hpos : (0 : ℚ) < (n : ℚ) - (k : ℚ) := by
            have : (k : ℚ) < (n : ℚ) := by exact_mod_cast hlt
            linarith
          rw [sgn, if_pos hpos]
          ring
        · subst heq
          rw [sub_self, sgn, if_neg (lt_irrefl 0), if_neg (lt_irrefl 0),
            zero_pow (show k ≠ 0 by omega)]
          ring
      rw [Finset.sum_congr rfl hpt, sum_choose_sub_pow n n le_rfl (n : ℚ),
        if_pos rfl]
    rw [hS, factorialCode_eq]
    have hf : (n.factorial : ℚ) ≠ 0 := by exact_mod_cast n.factorial_ne_zero
    field_simp
    ring
  · rw [uniformSumCDF, if_neg (not_lt.2 (by linarith)), if_pos h]

/-- Claim C7: `uniformSumCDF(n, x)` is 0 for every `x ≤ 0` and 1 for every
`x ≥ n` — in particular exactly 0 at `x = 0` and exactly 1 at `x = n`, the
boundary points the code's branches leave to the signed-power formula — for
every positive `n`. -/
theorem c7_uniformSumCDF_boundary (n : ℕ) (hn : 1 ≤ n) :
    (∀ x : ℚ, x ≤ 0 → uniformSumCDF n x = 0) ∧
      (∀ x : ℚ, (n : ℚ) ≤ x → uniformSumCDF n x = 1) :=
  ⟨fun x hx => uniformSumCDF_of_nonpos n hn x hx,
   fun x hx => uniformSumCDF_of_ge n hn x hx⟩

/-- Claim C7 (witness): the boundary values at `n = 4`. -/
theorem c7_witness :
    1 ≤ 4 ∧ uniformSumCDF 4 0 = 0 ∧ uniformSumCDF 4 4 = 1 :=
  ⟨by decide,
   (c7_uniformSumCDF_boundary 4 (by decide)).1 0 (by norm_num),
   (c7_uniformSumCDF_boundary 4 (by decide)).2 4 (by norm_num)⟩

/-! ### Memoization of `probabilityAfter` -/

theorem memoLookup_mem {memo : List (ℕ × ℚ)} {k : ℕ} {v : ℚ}
    (h : memoLookup memo k = some v) : (k, v) ∈ memo := by
  induction memo with
  | nil => simp [memoLookup] at h
  | cons p rest ih =>
    obtain ⟨k', v'⟩ := p
    rw [memoLookup] at h
    by_cases hk : k' = k
    · rw [if_pos hk] at h
      injection h with h
      subst hk; subst h
      exact List.mem_cons_self _ _
    · rw [if_neg hk] at h
      exact List.mem_cons_of_mem _ (ih h)

theorem runPermSums_spec (dmin dmax seconds : ℚ) (pos : ℕ) :
    ∀ (ps : List ℕ) (memo : List (ℕ × ℚ)),
      (∀ p ∈ memo, p.2 = termValue dmin dmax seconds p.1) →
      (runPermSums dmin dmax seconds pos ps memo).2
          = modeSumDirect dmin dmax seconds pos ps
        ∧ ∀ p ∈ (runPermSums dmin dmax seconds pos ps memo).1,
            p.2 = termValue dmin dmax seconds p.1 := by
  intro ps
  induction ps with
  | nil =>
    intro memo h
    exact ⟨by simp [runPermSums, modeSumDirect], by simpa [runPermSums] using h⟩
  | cons s rest ih =>
    intro memo hwf
    rw [runPermSums]
    cases hl : memoLookup memo (pos + s) with
    | some v =>
      have hv : v = termValue dmin dmax seconds (pos + s) :=
        hwf _ (memoLookup_mem hl)
      obtain ⟨h1, h2⟩ := ih memo hwf
      exact ⟨by simp [modeSumDirect] at h1 ⊢; rw [h1, hv], h2⟩
    | none =>
      have hwf' : ∀ p ∈ ((pos + s, termValue dmin dmax seconds (pos + s)) :: memo),
          p.2 = termValue dmin dmax seconds p.1 := by
        intro p hp
        rcases List.mem_cons.1 hp with h | h
        · subst h; rfl
        · exact hwf p h
      obtain ⟨h1, h2⟩ := ih _ hwf'
      exact ⟨by simp [modeSumDirect] at h1 ⊢; rw [h1], h2⟩

theorem runModes_spec (dmin dmax seconds : ℚ) (otherModes : Option (List ℕ)) :
    ∀ (poss : List ℕ) (memo : List (ℕ × ℚ)),
      (∀ p ∈ memo, p.2 = termValue dmin dmax seconds p.1) →
      (runModes dmin dmax seconds otherModes poss memo).2
          = (poss.map fun pos =>
              modeSumDirect dmin dmax seconds pos (permSumsFor otherModes pos)
                / ((permSumsFor otherModes pos).length : ℚ)).sum
        ∧ ∀ p ∈ (runModes dmin dmax seconds otherModes poss memo).1,
            p.2 = termValue dmin dmax seconds p.1 := by
  intro poss
  induction poss with
  | nil =>
    intro memo h
    exact ⟨by simp [runModes], by simpa [runModes] using h⟩
  | cons pos rest ih =>
    intro memo hwf
    rw [runModes]
    obtain ⟨h1, h2⟩ := runPermSums_spec dmin dmax seconds pos
      (permSumsFor otherModes pos) memo hwf
    obtain ⟨h3, h4⟩ := ih _ h2
    exact ⟨by simp only [List.map_cons, List.sum_cons]; rw [h1, h3], h4⟩

/-- The memoized `probabilityAfter` computes exactly the unmemoized form:
every memo entry stores `termValue` of its key, which depends only on
`pos + permSum` and `seconds`. -/
theorem probabilityAfter_eq_direct (dmin dmax seconds : ℚ)
    (otherModes : Option (List ℕ)) :
    probabilityAfter dmin dmax seconds otherModes
      = probabilityAfterDirect dmin dmax seconds otherModes := by
  rw [probabilityAfter, probabilityAfterDirect,
    (runModes_spec dmin dmax seconds otherModes [1, 2, 3, 4] []
      (by intro p hp; cases hp)).1]

/-! ### Limits of `probabilityAfter` -/

theorem probabilityAfter_none_eval (dmin dmax s : ℚ) :
    probabilityAfter dmin dmax s none
      = floor5 ((termValue dmin dmax s 1 + termValue dmin dmax s 2
          + termValue dmin dmax s 3 + termValue dmin dmax s 4) / 4) := by
  rw [probabilityAfter_eq_direct, probabilityAfterDirect]
  congr 1
  simp [permSumsFor, modeSumDirect]
  ring

theorem termValue_of_nonpos (dmin dmax s : ℚ) (m : ℕ) (h0 : 0 ≤ dmin)
    (h1 : dmin < dmax) (hm : 1 ≤ m) (hs : s ≤ 0) :
    termValue dmin dmax s m = 1 := by
  rw [termValue, uniformSumCDF_of_nonpos m hm _ ?hx]
  · ring
  case hx =>
    have hnum : s - (m : ℚ) * dmin ≤ 0 := by
      have : 0 ≤ (m : ℚ) * dmin := mul_nonneg (by positivity) h0
      linarith
    have hden : (0 : ℚ) ≤ dmax - dmin := by linarith
    exact div_nonpos_iff.2 (Or.inr ⟨hnum, hden⟩)

theorem termValue_of_ge (dmin dmax s : ℚ) (m : ℕ) (h0 : 0 ≤ dmin)
    (h1 : dmin < dmax) (hm : 1 ≤ m) (hm4 : m ≤ 4) (hs : 4 * dmax ≤ s) :
    termValue dmin dmax s m = 0 := by
  rw [termValue, uniformSumCDF_of_ge m hm _ ?hx]
  · ring
  case hx =>
    rw [le_div_iff₀ (by linarith)]
    have hc : (m : ℚ) ≤ 4 := by exact_mod_cast hm4
    have hdpos : (0 : ℚ) < dmax := by linarith
    nlinarith

/-- For every `s ≤ 0`, `probabilityAfter(s) = 1` (each position's survival
probability is 1 before any delay could have elapsed). -/
theorem probabilityAfter_none_of_nonpos (dmin dmax s : ℚ) (h0 : 0 ≤ dmin)
    (h1 : dmin < dmax) (hs : s ≤ 0) :
    probabilityAfter dmin dmax s none = 1 := by
  rw [probabilityAfter_none_eval,
    termValue_of_nonpos dmin dmax s 1 h0 h1 (by norm_num) hs,
    termValue_of_nonpos dmin dmax s 2 h0 h1 (by norm_num) hs,
    termValue_of_nonpos dmin dmax s 3 h0 h1 (by norm_num) hs,
    termValue_of_nonpos dmin dmax s 4 h0 h1 (by norm_num) hs]
  decide

/-- For every `s ≥ 4·DELAY_MAX`, `probabilityAfter(s) = 0`. -/
theorem probabilityAfter_none_of_ge (dmin dmax s : ℚ) (h0 : 0 ≤ dmin)
    (h1 : dmin < dmax) (hs : 4 * dmax ≤ s) :
    probabilityAfter dmin dmax s none = 0 := by
  rw [probabilityAfter_none_eval,
    termValue_of_ge dmin dmax s 1 h0 h1 (by norm_num) (by norm_num) hs,
    termValue_of_ge dmin dmax s 2 h0 h1 (by norm_num) (by norm_num) hs,
    termValue_of_ge dmin dmax s 3 h0 h1 (by norm_num) (by norm_num) hs,
    termValue_of_ge dmin dmax s 4 h0 h1 (by norm_num) (by norm_num) hs]
  decide

/-! ### Scenario S2: requalification credit and penalty -/

theorem diffsAdded_eq_false {newMapIds oldMapIds : List Int}
    (h : ∀ x ∈ newMapIds, x ∈ oldMapIds) :
    diffsAdded newMapIds oldMapIds = false := by
  unfold diffsAdded
  have hnil : (newMapIds.filter fun id => !oldMapIds.contains id) = [] := by
    rw [List.filter_eq_nil]
    intro a ha
    simp [h a ha]
  rw [hnil]
  rfl

theorem sameIds_self (a : List Int) : sameIds a a = true := by
  simp [sameIds, List.all_eq_true]

/-- Claim C3: replaying `qualify t0; disqualify (t0+3·DAY) [with nominators
and beatmap ids recorded]; two nominations restoring the same nominator
set; qualify t1 = t0+13·DAY` with a current beatmap id set adding nothing
beyond the disqualify's ids yields
`queuedAt = t1 − min(3·DAY, 6·DAY) + ⌊10/7⌋·DAY = t1 − 2·DAY`, hence
`queueDate = t1 + 5·DAY` (`MINIMUM_DAYS_FOR_RANK = 7`,
`MAXIMUM_PENALTY_DAYS ≥ 1`). -/
theorem c3_requalify_credit (t0 u1 u2 : Int) (bs currentIds : List Int)
    (mp : Int) (hsub : ∀ x ∈ currentIds, x ∈ bs) (hmp : 1 ≤ mp) :
    setQueueDate currentIds mp (c3Events t0 u1 u2 bs)
      = (t0 + 13 * DAY) + 5 * DAY := by
  have hdiff := diffsAdded_eq_false hsub
  have hsame := sameIds_self [u1, u2]
  have hminA : min (0 : ℤ) ((MINIMUM_DAYS_FOR_RANK - 1) * DAY) = 0 :=
    min_eq_left (by norm_num [MINIMUM_DAYS_FOR_RANK, DAY])
  have hprev : t0 + 3 * DAY - t0 = 3 * DAY := by ring
  have hminB : min (3 * DAY) ((MINIMUM_DAYS_FOR_RANK - 1) * DAY) = 3 * DAY :=
    min_eq_left (by norm_num [MINIMUM_DAYS_FOR_RANK, DAY])
  have hint : t0 + 13 * DAY - (t0 + 3 * DAY) = 10 * DAY := by ring
  have hfloor : ((((10 * DAY : ℤ) : ℚ)) / ((DAY : ℤ) : ℚ) / 7).floor = 1 := by
    decide
  have hminC : min (1 : ℤ) mp = 1 := min_eq_left hmp
  simp only [setQueueDate, replay, c3Events, List.foldl, replayStep,
    initialReplayState, List.nil_append, List.cons_append, hsame, hdiff,
    Bool.not_true, Bool.false_eq_true, ite_false, ite_true, sub_zero,
    hminA, hprev, hminB, hint, hfloor, hminC, Option.getD_some]
  norm_num [MINIMUM_DAYS_FOR_RANK, DAY]
  ring

/-- Claim C3 (witness): scenario S2 at `t0 = 0`, nominators 1 and 2,
disqualify beatmap ids `[5, 6]`, current ids `[5]`,
`MAXIMUM_PENALTY_DAYS = 2`. -/
theorem c3_witness :
    (∀ x ∈ ([5] : List Int), x ∈ ([5, 6] : List Int)) ∧ (1 : ℤ) ≤ 2
      ∧ setQueueDate [5] 2 (c3Events 0 1 2 [5, 6]) = (0 + 13 * DAY) + 5 * DAY :=
  ⟨by decide, by decide,
   c3_requalify_credit 0 1 2 [5, 6] [5] 2 (by decide) (by decide)⟩

/-- Claim C2 (counterexample): `probabilityAfter` does not tend to 0 for
arbitrarily negative arguments — for every threshold there is a more
negative argument where it returns 1, because the code computes
`1 − uniformSumCDF(...)`, the probability that the next map ranks *after*
the given offset.  (Instantiated at `DELAY_MIN = 1`, `DELAY_MAX = 2`; the
dates in the counterexample do not depend on that choice.) -/
theorem c2_counterexample :
    ¬ ∃ T : ℚ, ∀ s : ℚ, s ≤ T → probabilityAfter 1 2 s none = 0 := by
  rintro ⟨T, h⟩
  have h1 := h (min T 0) (min_le_left _ _)
  have h2 : probabilityAfter 1 2 (min T 0) none = 1 :=
    probabilityAfter_none_of_nonpos 1 2 _ (by norm_num) (by norm_num)
      (min_le_right _ _)
  rw [h1] at h2
  norm_num at h2

/-- Claim C2 (amended): the limits are the reverse of the spec's:
`probabilityAfter(−∞) = 1` and `probabilityAfter(+∞) = 0` (exactly, after
the 5-decimal truncation): for every `s ≤ 0` the result is 1 and for every
`s ≥ 4·DELAY_MAX` the result is 0, for any delay bounds with
`0 ≤ DELAY_MIN < DELAY_MAX`.  The function returns the probability that the
mode's next map ranks *after* the given offset past the interval
boundary. -/
theorem c2_probabilityAfter_limits (dmin dmax : ℚ) (h0 : 0 ≤ dmin)
    (h1 : dmin < dmax) :
    (∀ s : ℚ, s ≤ 0 → probabilityAfter dmin dmax s none = 1) ∧
      (∀ s : ℚ, 4 * dmax ≤ s → probabilityAfter dmin dmax s none = 0) :=
  ⟨fun s hs => probabilityAfter_none_of_nonpos dmin dmax s h0 h1 hs,
   fun s hs => probabilityAfter_none_of_ge dmin dmax s h0 h1 hs⟩

/-- Claim C2 (witness): the amended limits at `DELAY_MIN = 1`,
`DELAY_MAX = 2`. -/
theorem c2_witness :
    (0 : ℚ) ≤ 1 ∧ (1 : ℚ) < 2 ∧ probabilityAfter 1 2 (-5) none = 1
      ∧ probabilityAfter 1 2 100 none = 0 :=
  ⟨by norm_num, by norm_num,
   (c2_probabilityAfter_limits 1 2 (by norm_num) (by norm_num)).1 (-5)
     (by norm_num),
   (c2_probabilityAfter_limits 1 2 (by norm_num) (by norm_num)).2 100
     (by norm_num)⟩

/-- Claim C9: `probabilityAfter` with its per-call memo table returns exactly
the value of the unmemoized definition in which every term is computed
directly as `1 − uniformSumCDF(pos + permSum,
(seconds − (pos + permSum)·DELAY_MIN)/(DELAY_MAX − DELAY_MIN))`: each memo
entry depends only on its key `pos + permSum` and on `seconds`. -/
theorem c9_probabilityAfter_memo_sound (dmin dmax seconds : ℚ)
    (otherModes : Option (List ℕ)) :
    probabilityAfter dmin dmax seconds otherModes
      = probabilityAfterDirect dmin dmax seconds otherModes :=
  probabilityAfter_eq_direct dmin dmax seconds otherModes

/-- Claim C4 (code bug): a concrete, precondition-respecting input on which
`adjustAllRankDates` breaks `queueDate ≤ rankDateEarly ≤ rankDate`.  Mode 0
holds two ranked context sets (rank date 122400000, ascending) and two
qualified sets (queue dates 120000000 and 120600000, ascending).  The first
qualified set keeps rank date 120000000; for the second, the step-E2
slot branch (outer `every` satisfied, inner `every` failed because the
ranked maps occupy a later slot) rewrites `rankDate = rankDateEarly =
roundMinutes(filteredMaps[0].rankDate, down) = 120000000`, which is 10
minutes *before* its own queue date 120600000. -/
theorem c4_invariant_violation :
    adjustAllRankDates 1 2 [[c4Qa, c4Qb], [], [], []] [[c4R, c4R], [], [], []]
        = some [[c4OutA, c4OutB], [], [], []]
      ∧ c4OutB.queueDate = some 120600000
      ∧ c4OutB.rankDateEarly = some 120000000
      ∧ c4OutB.rankDate = some 120000000
      ∧ ¬ c4OutB.queueDate.getD 0 ≤ c4OutB.rankDateEarly.getD 0 := by
  refine ⟨by decide, by decide, by decide, by decide, by decide⟩

/-! ### Frame property of the projector loop -/

theorem adjustLoop_length :
    ∀ (fuel : ℕ) (dmin dmax : ℚ) (rl : ℕ) (c : List BSet) (i : ℕ)
      (out : List BSet),
      adjustLoop dmin dmax rl fuel c i = some out → out.length = c.length := by
  intro fuel
  induction fuel with
  | zero =>
    intro dmin dmax rl c i out h
    rw [adjustLoop] at h
    injection h with h
    rw [← h]
  | succ fuel ih =>
    intro dmin dmax rl c i out h
    rw [adjustLoop] at h
    by_cases hc : i < c.length
    · rw [if_pos hc] at h
      cases hp : processIndex dmin dmax rl c i with
      | none => rw [hp] at h; cases h
      | some q =>
        rw [hp] at h
        have := ih dmin dmax rl (c.set i q) (i + 1) out h
        rwa [List.length_set] at this
    · rw [if_neg hc] at h
      injection h with h
      rw [← h]

theorem adjustLoop_get?_lt :
    ∀ (fuel : ℕ) (dmin dmax : ℚ) (rl : ℕ) (c : List BSet) (i : ℕ)
      (out : List BSet),
      adjustLoop dmin dmax rl fuel c i = some out →
      ∀ j, j < i → out.get? j = c.get? j := by
  intro fuel
  induction fuel with
  | zero =>
    intro dmin dmax rl c i out h j _
    rw [adjustLoop] at h
    injection h with h
    rw [← h]
  | succ fuel ih =>
    intro dmin dmax rl c i out h j hj
    rw [adjustLoop] at h
    by_cases hc : i < c.length
    · rw [if_pos hc] at h
      cases hp : processIndex dmin dmax rl c i with
      | none => rw [hp] at h; cases h
      | some q =>
        rw [hp] at h
        have := ih dmin dmax rl (c.set i q) (i + 1) out h j (by omega)
        rwa [List.get?_set_ne q c (show i ≠ j by omega)] at this
    · rw [if_neg hc] at h
      injection h with h
      rw [← h]

/-- Claim C8: the projector loop never writes to the ranked prefix of the
combined list: after `adjustRankDates` (any `start`, in particular the
`start = 0` calls of `adjustAllRankDates`) the first `rankedMaps.length`
entries — every field of every ranked set — are exactly the input
`rankedMaps`; only qualified entries (combined indices
`≥ rankedMaps.length + start`) are rewritten. -/
theorem c8_ranked_unchanged (dmin dmax : ℚ)
    (qualifiedMaps rankedMaps : List BSet) (start : ℕ) (out : List BSet)
    (h : adjustRankDatesCombined dmin dmax qualifiedMaps rankedMaps start
          = some out) :
    out.take rankedMaps.length = rankedMaps := by
  rw [adjustRankDatesCombined] at h
  have hlen := adjustLoop_length _ _ _ _ _ _ _ h
  have hget := adjustLoop_get?_lt _ _ _ _ _ _ _ h
  apply List.ext_get?
  intro j
  by_cases hj : j < rankedMaps.length
  · rw [List.get?_take hj, hget j (by omega), List.get?_append hj]
  · push_neg at hj
    rw [List.get?_len_le (by rw [List.length_take]; omega),
      List.get?_len_le hj]

/-- Claim C8 (witness): one ranked and one qualified set; the ranked prefix
of the final combined list is untouched. -/
theorem c8_witness :
    adjustRankDatesCombined 1 2 [c8Q] [c8R] 0 = some c8Out
      ∧ c8Out.take 1 = [c8R] :=
  ⟨by decide, c8_ranked_unchanged 1 2 [c8Q] [c8R] 0 c8Out (by decide)⟩

/-- Claim C5 (amended, scenario S6): three non-unresolved maps share
`floor(rankDate) = 1200000`; the fourth, whose `rankDateEarly` also floors
to 1200000, is pushed to `1200000 + RANK_INTERVAL·MINUTE = 2400000` with
probability 0, so only `RANK_PER_RUN` assigned rank dates share the
bucket. -/
theorem c5_overflow_push :
    adjustRankDates 1 2 [c5M, c5M, c5M, c5M] [] 0
        = some [c5Out1, c5Out1, c5Out1, c5Out4]
      ∧ c5Out4.rankDate = some (1200000 + RANK_INTERVAL * MINUTE)
      ∧ c5Out4.probability = some 0
      ∧ (([c5Out1, c5Out1, c5Out1, c5Out4].filterMap BSet.rankDate).map
          roundMinutesDown).count 1200000 = RANK_PER_RUN := by
  refine ⟨by decide, by decide, by decide, by decide⟩

/-- Claim C5 (counterexample): with the fourth map flagged unresolved, step E
is skipped for it and it keeps the already-saturated slot:
`RANK_PER_RUN + 1 = 4` assigned rank dates share the interval bucket
1200000 after `adjustRankDates`. -/
theorem c5_counterexample :
    adjustRankDates 1 2 [c5M, c5M, c5M, c5MU] [] 0
        = some [c5Out1, c5Out1, c5Out1, c5OutU]
      ∧ (([c5Out1, c5Out1, c5Out1, c5OutU].filterMap BSet.rankDate).map
          roundMinutesDown).count 1200000 = RANK_PER_RUN + 1 := by
  refine ⟨by decide, by decide⟩

/-- Claim C10: the recomputation pass of `calcEarlyProbability` is total
when the bucket keyed by `roundMinutes(rankDateEarly, down)` is absent from
the `rankDates` map — which happens when the set's own first-pass key was
its `rankDate` (probability ≤ SPLIT) and no other set bucketed at that key:
the probability is recomputed with the other-mode counts argument absent
(`rankDates[key]?` propagates `undefined`), not a failure. -/
theorem c10_missing_bucket (dmin dmax : ℚ) (b : BSet) (a c : Int)
    (hrde : b.rankDateEarly = some a) (hrd : b.rankDate = some c)
    (hprob : b.probability ≠ none) (hsplit : b.probability.getD 0 ≤ SPLIT)
    (hne : a ≠ c) (hkey : roundMinutesDown a ≠ c) :
    calcEarlyProbability dmin dmax [[b], [], [], []]
      = some [[{ b with probability := some (probabilityAfter dmin dmax
          ((intervalTimeDelta a : Int) : ℚ) none) }], [], [], []] := by
  rw [calcEarlyProbability]
  rw [show buildBuckets [[b], [], [], []] [] = some [(c, bumpMode [0, 0, 0, 0] b.mode)] by
    simp [buildBuckets, buildBucketsOne, bucketKey, not_lt.2 hsplit, hrd,
      bucketsInsert]]
  simp only [Option.bind_eq_bind, Option.some_bind]
  rw [show secondPass dmin dmax [(c, bumpMode [0, 0, 0, 0] b.mode)] [[b], [], [], []]
        = some [[{ b with probability := some (probabilityAfter dmin dmax
            ((intervalTimeDelta a : Int) : ℚ) none) }], [], [], []] by
    simp [secondPass, secondPassOne, hrde, hrd, hprob, hne, bucketsLookup,
      Ne.symm hkey]]

/-- Claim C10 (witness): a set with probability `0 ≤ SPLIT`, early time 100
(bucket 0) and rank date 1200000: bucket 0 is absent and the probability is
recomputed with no other-mode counts. -/
theorem c10_witness :
    c10B.rankDateEarly = some 100 ∧ c10B.rankDate = some 1200000
      ∧ c10B.probability ≠ none ∧ c10B.probability.getD 0 ≤ SPLIT
      ∧ (100 : Int) ≠ 1200000 ∧ roundMinutesDown 100 ≠ 1200000
      ∧ calcEarlyProbability 1 2 [[c10B], [], [], []]
          = some [[{ c10B with probability := some (probabilityAfter 1 2
              ((intervalTimeDelta 100 : Int) : ℚ) none) }], [], [], []] :=
  ⟨rfl, rfl, by decide, by decide, by decide, by decide,
   c10_missing_bucket 1 2 c10B 100 1200000 rfl rfl (by decide) (by decide)
     (by decide) (by decide)⟩

end MapRankTimes
